import Mathlib

/-! Parameter derivation of the LSH wrapper (`similarity_search/include/method/lsh.h`)

A shallow embedding of the four `ParameterCreator<...>::GetParameter` functions and
theorems about the parameters they return.

Modelling conventions.

* A finite `float` is represented by the rational number it denotes.  The code under
  study only copies and compares floats (`<`, `>`), it never does arithmetic on them,
  so on finite values the rational order is exactly the C++ order.  The two zeros
  `+0.0` and `-0.0` denote the same number, as they do for the C++ `==`.  NaN and the
  infinities are not values of the model.
* `unsigned` and `int` quantities (`H`, `M`, the dimension, the number of points) are
  natural numbers; they are only copied, never computed with.
* A call that may end the program returns `Except String _`, the error carrying the
  diagnostic of the fatal log record.
-/

namespace similarity

/-- The C++ type `float`, restricted to its finite values. -/
abbrev float := ℚ

/-- The value of `std::numeric_limits<float>::max()`, the largest finite binary32
number `(2^24 - 1) * 2^104`. -/
def numeric_limits_float_max : float := (((2 ^ 24 - 1) * 2 ^ 104 : Nat) : ℚ)

/-- The value of `std::numeric_limits<float>::min()`, the smallest positive normalized
binary32 number `2^-126`. -/
def numeric_limits_float_min : float := mkRat 1 (2 ^ 126)

/-- The finite floats lie between `-FLT_MAX` and `FLT_MAX`. -/
def isFinite (x : float) : Prop :=
  -numeric_limits_float_max ≤ x ∧ x ≤ numeric_limits_float_max

instance (x : float) : Decidable (isFinite x) := by
  unfold isFinite; exact inferInstance

/-- Modelled from the spec: `lshkit::FloatMatrix` (declared in `lshkit.h`, which is not
among the sources).  The spec describes the dataset as an ordered collection of
fixed-dimension points of real values; the code reads it through `getSize()`,
`getDim()` and `matrix[i][j]` for `i < getSize()` and `j < getDim()`. -/
structure FloatMatrix where
  /-- The common dimension of the points, `getDim()`. -/
  getDim : Nat
  /-- The number of points, `getSize()`. -/
  getSize : Nat
  /-- The coordinate `matrix[i][j]`. -/
  entry : Fin getSize → Fin getDim → float

/-- The severities of a log record used in `lsh.h`. -/
inductive LogSeverity where
  | INFO
  | FATAL
  deriving DecidableEq, Repr

/-- Modelled from the spec: the `LOG` macro (its header is not among the sources).  A
record of severity `FATAL` aborts the program with its diagnostic ("must abort the
program immediately with a diagnostic"); a record of any other severity is written and
execution continues. -/
def LOG (severity : LogSeverity) (message : String) : Except String Unit :=
  match severity with
  | LogSeverity.FATAL => Except.error message
  | LogSeverity.INFO => Except.ok ()

/-- Modelled from the spec: `TailRepeatHashThreshold::Parameter` (declared in `lshkit.h`,
which is not among the sources): hash-range size, repeat count, vector dimension and the
min/max bounds, the five fields assigned in lsh.h, lines 65-69. -/
@[ext]
structure TailRepeatHashThreshold.Parameter where
  range : Nat
  «repeat» : Nat
  dim : Nat
  min : float
  max : float
  deriving DecidableEq, Inhabited

/-- Modelled from the spec: `TailRepeatHashCauchy::Parameter` (declared in `lshkit.h`,
which is not among the sources): hash-range size, repeat count, vector dimension and
window width, the four fields assigned in lsh.h, lines 92-95. -/
structure TailRepeatHashCauchy.Parameter where
  range : Nat
  «repeat» : Nat
  dim : Nat
  W : float
  deriving DecidableEq, Inhabited

/-- Modelled from the spec: `TailRepeatHashGaussian::Parameter` (declared in `lshkit.h`,
which is not among the sources): hash-range size, repeat count, vector dimension and
window width, the four fields assigned in lsh.h, lines 111-114. -/
structure TailRepeatHashGaussian.Parameter where
  range : Nat
  «repeat» : Nat
  dim : Nat
  W : float
  deriving DecidableEq, Inhabited

/-- The unspecialized `ParameterCreator<lsh_t>::GetParameter` (lsh.h, lines 46-51):
it logs a fatal record and then returns a default-constructed parameter. -/
def ParameterCreator.GetParameter {Parameter : Type} [Inhabited Parameter]
    (_matrix : FloatMatrix) (_H _M : Nat) (_W : float) : Except String Parameter := do
  LOG LogSeverity.FATAL "not allowed dummy parameter creator"
  return default

/-- The body of the inner loop of the threshold derivation (lsh.h, lines 72-73), for
the coordinate `x = matrix[i][j]`. -/
def ParameterCreator.TailRepeatHashThreshold.update
    (param : TailRepeatHashThreshold.Parameter) (x : float) :
    TailRepeatHashThreshold.Parameter :=
  let param := if x < param.min then { param with min := x } else param
  let param := if x > param.max then { param with max := x } else param
  param

/-- The two nested loops of the threshold derivation (lsh.h, lines 70-75). -/
def ParameterCreator.TailRepeatHashThreshold.scan (matrix : FloatMatrix)
    (param : TailRepeatHashThreshold.Parameter) : TailRepeatHashThreshold.Parameter :=
  (List.finRange matrix.getSize).foldl
    (fun param i =>
      (List.finRange matrix.getDim).foldl
        (fun param j => ParameterCreator.TailRepeatHashThreshold.update param (matrix.entry i j))
        param)
    param

/-- The function `ParameterCreator<TailRepeatHashThreshold>::GetParameter` (lsh.h,
lines 61-78).  The text of the `INFO` record does not reach the caller. -/
def ParameterCreator.TailRepeatHashThreshold.GetParameter
    (matrix : FloatMatrix) (H M : Nat) (_W : float) :
    Except String TailRepeatHashThreshold.Parameter := do
  let param : TailRepeatHashThreshold.Parameter :=
    { range := H, «repeat» := M, dim := matrix.getDim,
      min := numeric_limits_float_max, max := numeric_limits_float_min }
  let param := ParameterCreator.TailRepeatHashThreshold.scan matrix param
  LOG LogSeverity.INFO ("min  " ++ toString param.min ++ " max " ++ toString param.max)
  return param

/-- The function `ParameterCreator<TailRepeatHashCauchy>::GetParameter` (lsh.h, lines
88-97). -/
def ParameterCreator.TailRepeatHashCauchy.GetParameter
    (matrix : FloatMatrix) (H M : Nat) (W : float) : TailRepeatHashCauchy.Parameter :=
  { range := H, «repeat» := M, dim := matrix.getDim, W := W }

/-- The function `ParameterCreator<TailRepeatHashGaussian>::GetParameter` (lsh.h,
lines 107-116). -/
def ParameterCreator.TailRepeatHashGaussian.GetParameter
    (matrix : FloatMatrix) (H M : Nat) (W : float) : TailRepeatHashGaussian.Parameter :=
  { range := H, «repeat» := M, dim := matrix.getDim, W := W }

/-- The matrix with the rows of `matrix` rearranged by the permutation `σ`. -/
def FloatMatrix.permuteRows (matrix : FloatMatrix) (σ : Equiv.Perm (Fin matrix.getSize)) :
    FloatMatrix :=
  { getDim := matrix.getDim, getSize := matrix.getSize, entry := fun i j => matrix.entry (σ i) j }

/-- A dataset of two points of dimension two. -/
def sampleMatrix : FloatMatrix :=
  { getDim := 2, getSize := 2, entry := ![![3, 1], ![2, 5]] }

/-- A dataset of three points of dimension two. -/
def otherMatrix : FloatMatrix :=
  { getDim := 2, getSize := 3, entry := ![![-4, 0], ![7, 7], ![1 / 2, 9]] }

/-- A dataset of the single one-dimensional point `(-1)`. -/
def negativeMatrix : FloatMatrix :=
  { getDim := 1, getSize := 1, entry := ![![-1]] }

/-- A dataset of twice the same point `(1, 2)`. -/
def repeatedPointMatrix : FloatMatrix :=
  { getDim := 2, getSize := 2, entry := ![![1, 2], ![1, 2]] }

/-- A dataset of twice the same point `(7, 7)`. -/
def constantMatrix : FloatMatrix :=
  { getDim := 2, getSize := 2, entry := ![![7, 7], ![7, 7]] }

/-- A dataset without points, of dimension three. -/
def emptyMatrix : FloatMatrix :=
  { getDim := 3, getSize := 0, entry := fun i _ => i.elim0 }

/-- A dataset of two points of dimension zero. -/
def zeroDimMatrix : FloatMatrix :=
  { getDim := 0, getSize := 2, entry := fun _ j => j.elim0 }


/-! ## Lemmas on the scan of the threshold derivation -/

/-- Folding a step that can only move a tracked value down (in the order `le`) to a
value it has seen: the final value is below the initial one and below everything
seen, and it is the initial value or one of the values seen. -/
theorem foldl_extremum {P ι : Type} (v : P → ℚ) (le : ℚ → ℚ → Prop)
    (hrefl : ∀ a, le a a) (htrans : ∀ a b c, le a b → le b c → le a c)
    (S : ι → ℚ → Prop) (f : P → ι → P)
    (hf : ∀ p a, le (v (f p a)) (v p) ∧ (∀ x, S a x → le (v (f p a)) x) ∧
      (v (f p a) = v p ∨ S a (v (f p a)))) :
    ∀ (l : List ι) (p : P), le (v (l.foldl f p)) (v p) ∧
      (∀ a ∈ l, ∀ x, S a x → le (v (l.foldl f p)) x) ∧
      (v (l.foldl f p) = v p ∨ ∃ a ∈ l, S a (v (l.foldl f p))) := by
  intro l
  induction l with
  | nil => intro p; exact ⟨hrefl _, by simp, Or.inl rfl⟩
  | cons a l ih =>
    intro p
    obtain ⟨h1, h2, h3⟩ := ih (f p a)
    obtain ⟨g1, g2, g3⟩ := hf p a
    simp only [List.foldl_cons]
    refine ⟨htrans _ _ _ h1 g1, ?_, ?_⟩
    · intro b hb x hx
      rcases List.mem_cons.1 hb with rfl | hb
      · exact htrans _ _ _ h1 (g2 x hx)
      · exact h2 b hb x hx
    · rcases h3 with h3 | ⟨b, hb, hS⟩
      · rcases g3 with g3 | g3
        · left; rw [h3, g3]
        · right; exact ⟨a, List.mem_cons_self _ _, by rw [h3]; exact g3⟩
      · right; exact ⟨b, List.mem_cons_of_mem _ hb, hS⟩

/-- A fold whose step keeps a projection unchanged keeps it unchanged. -/
theorem foldl_preserves {P ι α : Type} (v : P → α) (f : P → ι → P)
    (hf : ∀ p a, v (f p a) = v p) :
    ∀ (l : List ι) (p : P), v (l.foldl f p) = v p := by
  intro l
  induction l with
  | nil => intro p; rfl
  | cons a l ih => intro p; rw [List.foldl_cons, ih, hf]

/-- A fold whose step changes nothing on the elements of the list returns its initial
value. -/
theorem foldl_fixed {P ι : Type} (f : P → ι → P) :
    ∀ (l : List ι) (p : P), (∀ a ∈ l, ∀ q, f q a = q) → l.foldl f p = p := by
  intro l
  induction l with
  | nil => intro p _; rfl
  | cons a l ih =>
    intro p h
    rw [List.foldl_cons, h a (List.mem_cons_self _ _)]
    exact ih p (fun b hb => h b (List.mem_cons_of_mem _ hb))

namespace ParameterCreator.TailRepeatHashThreshold

theorem update_min (p : TailRepeatHashThreshold.Parameter) (x : float) :
    (update p x).min = if x < p.min then x else p.min := by
  simp only [update]
  split_ifs <;> rfl

theorem update_max (p : TailRepeatHashThreshold.Parameter) (x : float) :
    (update p x).max = if x > p.max then x else p.max := by
  simp only [update]
  split_ifs <;> rfl

theorem update_range (p : TailRepeatHashThreshold.Parameter) (x : float) :
    (update p x).range = p.range := by
  simp only [update]
  split_ifs <;> rfl

theorem update_repeat (p : TailRepeatHashThreshold.Parameter) (x : float) :
    (update p x).«repeat» = p.«repeat» := by
  simp only [update]
  split_ifs <;> rfl

theorem update_dim (p : TailRepeatHashThreshold.Parameter) (x : float) :
    (update p x).dim = p.dim := by
  simp only [update]
  split_ifs <;> rfl

/-- One pass of the inner loop over row `i`: the minimum can only go down, to a
coordinate of the row. -/
theorem row_min (m : FloatMatrix) (i : Fin m.getSize) (p : TailRepeatHashThreshold.Parameter) :
    ((List.finRange m.getDim).foldl (fun param j => update param (m.entry i j)) p).min ≤ p.min ∧
    (∀ j, ((List.finRange m.getDim).foldl
        (fun param j => update param (m.entry i j)) p).min ≤ m.entry i j) ∧
    (((List.finRange m.getDim).foldl (fun param j => update param (m.entry i j)) p).min = p.min ∨
      ∃ j, ((List.finRange m.getDim).foldl
        (fun param j => update param (m.entry i j)) p).min = m.entry i j) := by
  have h := foldl_extremum (fun q : TailRepeatHashThreshold.Parameter => q.min) (fun a b => a ≤ b)
    (fun a => le_refl a) (fun a b c hab hbc => le_trans hab hbc)
    (fun (j : Fin m.getDim) y => y = m.entry i j)
    (fun param j => update param (m.entry i j))
    (by
      intro q j
      simp only [update_min]
      split_ifs with hx
      · exact ⟨le_of_lt hx, fun y hy => by rw [hy], Or.inr rfl⟩
      · exact ⟨le_refl _, fun y hy => by rw [hy]; exact not_lt.1 hx, Or.inl rfl⟩)
    (List.finRange m.getDim) p
  obtain ⟨h1, h2, h3⟩ := h
  refine ⟨h1, fun j => h2 j (List.mem_finRange j) _ rfl, ?_⟩
  rcases h3 with h3 | ⟨j, _, hj⟩
  · exact Or.inl h3
  · exact Or.inr ⟨j, hj⟩

/-- One pass of the inner loop over row `i`: the maximum can only go up, to a
coordinate of the row. -/
theorem row_max (m : FloatMatrix) (i : Fin m.getSize) (p : TailRepeatHashThreshold.Parameter) :
    p.max ≤ ((List.finRange m.getDim).foldl (fun param j => update param (m.entry i j)) p).max ∧
    (∀ j, m.entry i j ≤ ((List.finRange m.getDim).foldl
        (fun param j => update param (m.entry i j)) p).max) ∧
    (((List.finRange m.getDim).foldl (fun param j => update param (m.entry i j)) p).max = p.max ∨
      ∃ j, ((List.finRange m.getDim).foldl
        (fun param j => update param (m.entry i j)) p).max = m.entry i j) := by
  have h := foldl_extremum (fun q : TailRepeatHashThreshold.Parameter => q.max) (fun a b => b ≤ a)
    (fun a => le_refl a) (fun a b c hab hbc => le_trans hbc hab)
    (fun (j : Fin m.getDim) y => y = m.entry i j)
    (fun param j => update param (m.entry i j))
    (by
      intro q j
      simp only [update_max]
      split_ifs with hx
      · exact ⟨le_of_lt hx, fun y hy => by rw [hy], Or.inr rfl⟩
      · exact ⟨le_refl _, fun y hy => by rw [hy]; exact not_lt.1 hx, Or.inl rfl⟩)
    (List.finRange m.getDim) p
  obtain ⟨h1, h2, h3⟩ := h
  refine ⟨h1, fun j => h2 j (List.mem_finRange j) _ rfl, ?_⟩
  rcases h3 with h3 | ⟨j, _, hj⟩
  · exact Or.inl h3
  · exact Or.inr ⟨j, hj⟩

/-- The scan leaves `min` below its initial value and below every coordinate, and at
the initial value or at some coordinate. -/
theorem scan_min (m : FloatMatrix) (p : TailRepeatHashThreshold.Parameter) :
    (scan m p).min ≤ p.min ∧ (∀ i j, (scan m p).min ≤ m.entry i j) ∧
    ((scan m p).min = p.min ∨ ∃ i j, (scan m p).min = m.entry i j) := by
  have h := foldl_extremum (fun q : TailRepeatHashThreshold.Parameter => q.min) (fun a b => a ≤ b)
    (fun a => le_refl a) (fun a b c hab hbc => le_trans hab hbc)
    (fun (i : Fin m.getSize) y => ∃ j, y = m.entry i j)
    (fun param i => (List.finRange m.getDim).foldl
      (fun param j => update param (m.entry i j)) param)
    (by
      intro q i
      obtain ⟨h1, h2, h3⟩ := row_min m i q
      exact ⟨h1, fun y ⟨j, hy⟩ => by rw [hy]; exact h2 j, h3⟩)
    (List.finRange m.getSize) p
  obtain ⟨h1, h2, h3⟩ := h
  refine ⟨h1, fun i j => h2 i (List.mem_finRange i) _ ⟨j, rfl⟩, ?_⟩
  rcases h3 with h3 | ⟨i, _, j, hj⟩
  · exact Or.inl h3
  · exact Or.inr ⟨i, j, hj⟩

/-- The scan leaves `max` above its initial value and above every coordinate, and at
the initial value or at some coordinate. -/
theorem scan_max (m : FloatMatrix) (p : TailRepeatHashThreshold.Parameter) :
    p.max ≤ (scan m p).max ∧ (∀ i j, m.entry i j ≤ (scan m p).max) ∧
    ((scan m p).max = p.max ∨ ∃ i j, (scan m p).max = m.entry i j) := by
  have h := foldl_extremum (fun q : TailRepeatHashThreshold.Parameter => q.max) (fun a b => b ≤ a)
    (fun a => le_refl a) (fun a b c hab hbc => le_trans hbc hab)
    (fun (i : Fin m.getSize) y => ∃ j, y = m.entry i j)
    (fun param i => (List.finRange m.getDim).foldl
      (fun param j => update param (m.entry i j)) param)
    (by
      intro q i
      obtain ⟨h1, h2, h3⟩ := row_max m i q
      exact ⟨h1, fun y ⟨j, hy⟩ => by rw [hy]; exact h2 j, h3⟩)
    (List.finRange m.getSize) p
  obtain ⟨h1, h2, h3⟩ := h
  refine ⟨h1, fun i j => h2 i (List.mem_finRange i) _ ⟨j, rfl⟩, ?_⟩
  rcases h3 with h3 | ⟨i, _, j, hj⟩
  · exact Or.inl h3
  · exact Or.inr ⟨i, j, hj⟩

/-- The scan does not touch `range`. -/
theorem scan_range (m : FloatMatrix) (p : TailRepeatHashThreshold.Parameter) :
    (scan m p).range = p.range :=
  foldl_preserves (fun q : TailRepeatHashThreshold.Parameter => q.range) _
    (fun q i => foldl_preserves (fun q : TailRepeatHashThreshold.Parameter => q.range)
      (fun param j => update param (m.entry i j)) (fun q _ => update_range q _) _ q) _ p

/-- The scan does not touch `repeat`. -/
theorem scan_repeat (m : FloatMatrix) (p : TailRepeatHashThreshold.Parameter) :
    (scan m p).«repeat» = p.«repeat» :=
  foldl_preserves (fun q : TailRepeatHashThreshold.Parameter => q.«repeat») _
    (fun q i => foldl_preserves (fun q : TailRepeatHashThreshold.Parameter => q.«repeat»)
      (fun param j => update param (m.entry i j)) (fun q _ => update_repeat q _) _ q) _ p

/-- The scan does not touch `dim`. -/
theorem scan_dim (m : FloatMatrix) (p : TailRepeatHashThreshold.Parameter) :
    (scan m p).dim = p.dim :=
  foldl_preserves (fun q : TailRepeatHashThreshold.Parameter => q.dim) _
    (fun q i => foldl_preserves (fun q : TailRepeatHashThreshold.Parameter => q.dim)
      (fun param j => update param (m.entry i j)) (fun q _ => update_dim q _) _ q) _ p

/-- With no point or with dimension zero the scan changes nothing. -/
theorem scan_of_no_entry (m : FloatMatrix) (p : TailRepeatHashThreshold.Parameter)
    (h : m.getSize = 0 ∨ m.getDim = 0) : scan m p = p := by
  unfold scan
  apply foldl_fixed
  intro i _ q
  apply foldl_fixed
  intro j _ _
  rcases h with h | h
  · exact absurd (h ▸ i.isLt : i.val < 0) (Nat.not_lt_zero _)
  · exact absurd (h ▸ j.isLt : j.val < 0) (Nat.not_lt_zero _)

/-- The scan of a matrix and the scan of the same matrix with its rows permuted end
with the same `min`. -/
theorem scan_permuteRows_min (m : FloatMatrix) (σ : Equiv.Perm (Fin m.getSize))
    (p : TailRepeatHashThreshold.Parameter) :
    (scan (m.permuteRows σ) p).min = (scan m p).min := by
  obtain ⟨a1, a2, a3⟩ := scan_min (m.permuteRows σ) p
  obtain ⟨b1, b2, b3⟩ := scan_min m p
  apply le_antisymm
  · rcases b3 with b3 | ⟨i, j, b3⟩
    · rw [b3]; exact a1
    · rw [b3]
      have h := a2 (σ.symm i) j
      simpa [FloatMatrix.permuteRows] using h
  · rcases a3 with a3 | ⟨i, j, a3⟩
    · rw [a3]; exact b1
    · rw [a3]; exact b2 (σ i) j

/-- The scan of a matrix and the scan of the same matrix with its rows permuted end
with the same `max`. -/
theorem scan_permuteRows_max (m : FloatMatrix) (σ : Equiv.Perm (Fin m.getSize))
    (p : TailRepeatHashThreshold.Parameter) :
    (scan (m.permuteRows σ) p).max = (scan m p).max := by
  obtain ⟨a1, a2, a3⟩ := scan_max (m.permuteRows σ) p
  obtain ⟨b1, b2, b3⟩ := scan_max m p
  apply le_antisymm
  · rcases a3 with a3 | ⟨i, j, a3⟩
    · rw [a3]; exact b1
    · rw [a3]; exact b2 (σ i) j
  · rcases b3 with b3 | ⟨i, j, b3⟩
    · rw [b3]; exact a1
    · rw [b3]
      have h := a2 (σ.symm i) j
      simpa [FloatMatrix.permuteRows] using h

/-- The threshold derivation always returns, with the result of the scan started from
`FLT_MAX` and `FLT_MIN`. -/
theorem GetParameter_eq (m : FloatMatrix) (H M : Nat) (W : float) :
    GetParameter m H M W = Except.ok (scan m
      { range := H, «repeat» := M, dim := m.getDim,
        min := numeric_limits_float_max, max := numeric_limits_float_min }) := rfl

end ParameterCreator.TailRepeatHashThreshold

/-! ## The threshold derivation: extreme values -/

/-- C1: on the dataset of the single finite point `(-1)` the threshold derivation
returns `max = FLT_MIN = 2^-126`, a value above every entry of the matrix and equal to
none of them, so the returned `max` is not the greatest entry `-1`. -/
theorem threshold_max_on_negative_dataset :
    (0 < negativeMatrix.getSize ∧ 0 < negativeMatrix.getDim ∧
      ∀ i j, isFinite (negativeMatrix.entry i j)) ∧
    ∃ p, ParameterCreator.TailRepeatHashThreshold.GetParameter negativeMatrix 16 2 1
        = Except.ok p ∧
      p.max = numeric_limits_float_min ∧
      (∀ i j, negativeMatrix.entry i j = -1) ∧
      (∀ i j, negativeMatrix.entry i j < p.max) ∧
      ¬ ∃ i j, p.max = negativeMatrix.entry i j :=
  ⟨by decide, _, rfl, by decide, by decide, by decide, by decide⟩

/-- C2: for a matrix with at least one point, dimension at least one and finite
entries, the threshold derivation returns a `min` that is the least entry of the
matrix: it is an entry, and it is below every entry. -/
theorem threshold_min_is_least_entry (m : FloatMatrix) (H M : Nat) (W : float)
    (hsize : 0 < m.getSize) (hdim : 0 < m.getDim)
    (hfin : ∀ i j, isFinite (m.entry i j)) :
    ∃ p, ParameterCreator.TailRepeatHashThreshold.GetParameter m H M W = Except.ok p ∧
      (∃ i j, p.min = m.entry i j) ∧ ∀ i j, p.min ≤ m.entry i j := by
  refine ⟨_, ParameterCreator.TailRepeatHashThreshold.GetParameter_eq m H M W, ?_, ?_⟩
  · obtain ⟨h1, h2, h3⟩ := ParameterCreator.TailRepeatHashThreshold.scan_min m
      { range := H, «repeat» := M, dim := m.getDim,
        min := numeric_limits_float_max, max := numeric_limits_float_min }
    rcases h3 with h3 | h3
    · refine ⟨⟨0, hsize⟩, ⟨0, hdim⟩, le_antisymm (h2 _ _) ?_⟩
      rw [h3]
      exact (hfin _ _).2
    · exact h3
  · exact (ParameterCreator.TailRepeatHashThreshold.scan_min m _).2.1

/-- Witness of C2 on a dataset of two points of dimension two. -/
theorem threshold_min_is_least_entry_witness :
    0 < sampleMatrix.getSize ∧ 0 < sampleMatrix.getDim ∧
    (∀ i j, isFinite (sampleMatrix.entry i j)) ∧
    ∃ p, ParameterCreator.TailRepeatHashThreshold.GetParameter sampleMatrix 16 2 1
        = Except.ok p ∧
      (∃ i j, p.min = sampleMatrix.entry i j) ∧ ∀ i j, p.min ≤ sampleMatrix.entry i j :=
  ⟨by decide, by decide, by decide,
    threshold_min_is_least_entry sampleMatrix 16 2 1 (by decide) (by decide) (by decide)⟩

/-- C3: whatever the matrix, `H`, `M` and `W`, the unspecialized derivation ends in
the fatal error with its diagnostic, and hands no parameter value back. -/
theorem dummy_GetParameter_aborts {Parameter : Type} [Inhabited Parameter]
    (m : FloatMatrix) (H M : Nat) (W : float) :
    (ParameterCreator.GetParameter m H M W : Except String Parameter)
        = Except.error "not allowed dummy parameter creator" ∧
    ∀ p : Parameter, ParameterCreator.GetParameter m H M W ≠ Except.ok p :=
  ⟨rfl, fun _ h => nomatch h⟩

/-! ## Copied fields -/

/-- C4: each of the three derivations returns `range = H`, `repeat = M` and
`dim = getDim()` unchanged, and the Cauchy and Gaussian derivations return the `W`
they were given. -/
theorem GetParameter_copies_fields (m : FloatMatrix) (H M : Nat) (W : float) :
    (∃ p, ParameterCreator.TailRepeatHashThreshold.GetParameter m H M W = Except.ok p ∧
      p.range = H ∧ p.«repeat» = M ∧ p.dim = m.getDim) ∧
    ((ParameterCreator.TailRepeatHashCauchy.GetParameter m H M W).range = H ∧
      (ParameterCreator.TailRepeatHashCauchy.GetParameter m H M W).«repeat» = M ∧
      (ParameterCreator.TailRepeatHashCauchy.GetParameter m H M W).dim = m.getDim ∧
      (ParameterCreator.TailRepeatHashCauchy.GetParameter m H M W).W = W) ∧
    ((ParameterCreator.TailRepeatHashGaussian.GetParameter m H M W).range = H ∧
      (ParameterCreator.TailRepeatHashGaussian.GetParameter m H M W).«repeat» = M ∧
      (ParameterCreator.TailRepeatHashGaussian.GetParameter m H M W).dim = m.getDim ∧
      (ParameterCreator.TailRepeatHashGaussian.GetParameter m H M W).W = W) :=
  ⟨⟨_, ParameterCreator.TailRepeatHashThreshold.GetParameter_eq m H M W,
      ParameterCreator.TailRepeatHashThreshold.scan_range m _,
      ParameterCreator.TailRepeatHashThreshold.scan_repeat m _,
      ParameterCreator.TailRepeatHashThreshold.scan_dim m _⟩,
    ⟨rfl, rfl, rfl, rfl⟩, ⟨rfl, rfl, rfl, rfl⟩⟩

/-! ## Identical points -/

/-- C5, as stated, fails: the dataset holding twice the point `(1, 2)` is not empty
and all its points are identical, yet the derivation returns `min = 1` and `max = 2`. -/
theorem threshold_identical_points_min_ne_max :
    (0 < repeatedPointMatrix.getSize ∧
      ∀ i k j, repeatedPointMatrix.entry i j = repeatedPointMatrix.entry k j) ∧
    ∃ p, ParameterCreator.TailRepeatHashThreshold.GetParameter repeatedPointMatrix 16 2 1
        = Except.ok p ∧ p.min = 1 ∧ p.max = 2 ∧ p.min ≠ p.max :=
  ⟨by decide, _, rfl, by decide, by decide, by decide⟩

/-- C5, amended: for a dataset with at least one point and dimension at least one
whose points are all identical, with all coordinates of the common point equal to one
another, finite and not below `FLT_MIN`, the derivation returns `min == max`. -/
theorem threshold_constant_points_min_eq_max (m : FloatMatrix) (H M : Nat) (W : float)
    (hsize : 0 < m.getSize) (hdim : 0 < m.getDim)
    (hrows : ∀ i k j, m.entry i j = m.entry k j)
    (hcoords : ∀ i j k, m.entry i j = m.entry i k)
    (hfin : ∀ i j, isFinite (m.entry i j))
    (hpos : ∀ i j, numeric_limits_float_min ≤ m.entry i j) :
    ∃ p, ParameterCreator.TailRepeatHashThreshold.GetParameter m H M W = Except.ok p ∧
      p.min = p.max := by
  refine ⟨_, ParameterCreator.TailRepeatHashThreshold.GetParameter_eq m H M W, ?_⟩
  have hall : ∀ i j, m.entry i j = m.entry ⟨0, hsize⟩ ⟨0, hdim⟩ := fun i j =>
    (hrows i ⟨0, hsize⟩ j).trans (hcoords _ j ⟨0, hdim⟩)
  obtain ⟨-, a2, a3⟩ := ParameterCreator.TailRepeatHashThreshold.scan_min m
    { range := H, «repeat» := M, dim := m.getDim,
      min := numeric_limits_float_max, max := numeric_limits_float_min }
  obtain ⟨-, b2, b3⟩ := ParameterCreator.TailRepeatHashThreshold.scan_max m
    { range := H, «repeat» := M, dim := m.getDim,
      min := numeric_limits_float_max, max := numeric_limits_float_min }
  have hmin : (ParameterCreator.TailRepeatHashThreshold.scan m
      { range := H, «repeat» := M, dim := m.getDim,
        min := numeric_limits_float_max, max := numeric_limits_float_min }).min
      = m.entry ⟨0, hsize⟩ ⟨0, hdim⟩ := by
    rcases a3 with a3 | ⟨i, j, a3⟩
    · refine le_antisymm (a2 _ _) ?_
      rw [a3]
      exact (hfin _ _).2
    · rw [a3, hall]
  have hmax : (ParameterCreator.TailRepeatHashThreshold.scan m
      { range := H, «repeat» := M, dim := m.getDim,
        min := numeric_limits_float_max, max := numeric_limits_float_min }).max
      = m.entry ⟨0, hsize⟩ ⟨0, hdim⟩ := by
    rcases b3 with b3 | ⟨i, j, b3⟩
    · refine le_antisymm ?_ (b2 _ _)
      rw [b3]
      exact hpos _ _
    · rw [b3, hall]
  rw [hmin, hmax]

/-- Witness of the amended C5 on the dataset holding twice the point `(7, 7)`. -/
theorem threshold_constant_points_min_eq_max_witness :
    0 < constantMatrix.getSize ∧ 0 < constantMatrix.getDim ∧
    (∀ i k j, constantMatrix.entry i j = constantMatrix.entry k j) ∧
    (∀ i j k, constantMatrix.entry i j = constantMatrix.entry i k) ∧
    (∀ i j, isFinite (constantMatrix.entry i j)) ∧
    (∀ i j, numeric_limits_float_min ≤ constantMatrix.entry i j) ∧
    ∃ p, ParameterCreator.TailRepeatHashThreshold.GetParameter constantMatrix 16 2 1
        = Except.ok p ∧ p.min = p.max :=
  ⟨by decide, by decide, by decide, by decide, by decide, by decide,
    threshold_constant_points_min_eq_max constantMatrix 16 2 1
      (by decide) (by decide) (by decide) (by decide) (by decide) (by decide)⟩

/-! ## What the derivations depend on -/

/-- C6: two matrices of the same dimension get equal Cauchy parameters and equal
Gaussian parameters, whatever their numbers of points and their entries. -/
theorem distribution_families_depend_on_dim_only (m1 m2 : FloatMatrix) (H M : Nat) (W : float)
    (hdim : m1.getDim = m2.getDim) :
    ParameterCreator.TailRepeatHashCauchy.GetParameter m1 H M W
        = ParameterCreator.TailRepeatHashCauchy.GetParameter m2 H M W ∧
    ParameterCreator.TailRepeatHashGaussian.GetParameter m1 H M W
        = ParameterCreator.TailRepeatHashGaussian.GetParameter m2 H M W := by
  simp only [ParameterCreator.TailRepeatHashCauchy.GetParameter,
    ParameterCreator.TailRepeatHashGaussian.GetParameter, hdim, and_self]

/-- Witness of C6 on a dataset of two points and a dataset of three points, both of
dimension two and with different entries. -/
theorem distribution_families_depend_on_dim_only_witness :
    sampleMatrix.getDim = otherMatrix.getDim ∧
    sampleMatrix.getSize ≠ otherMatrix.getSize ∧
    ParameterCreator.TailRepeatHashCauchy.GetParameter sampleMatrix 16 2 (1 / 4)
        = ParameterCreator.TailRepeatHashCauchy.GetParameter otherMatrix 16 2 (1 / 4) ∧
    ParameterCreator.TailRepeatHashGaussian.GetParameter sampleMatrix 16 2 (1 / 4)
        = ParameterCreator.TailRepeatHashGaussian.GetParameter otherMatrix 16 2 (1 / 4) :=
  ⟨by decide, by decide,
    distribution_families_depend_on_dim_only sampleMatrix otherMatrix 16 2 (1 / 4) (by decide)⟩

/-- C7: the threshold derivation returns the same parameters for any two window
widths. -/
theorem threshold_ignores_window (m : FloatMatrix) (H M : Nat) (W1 W2 : float) :
    ParameterCreator.TailRepeatHashThreshold.GetParameter m H M W1
      = ParameterCreator.TailRepeatHashThreshold.GetParameter m H M W2 := by
  rw [ParameterCreator.TailRepeatHashThreshold.GetParameter_eq,
    ParameterCreator.TailRepeatHashThreshold.GetParameter_eq]

/-! ## Bounds, empty datasets and the order of the points -/

/-- C8: the returned bounds enclose the data: every entry `x` of the matrix satisfies
`min <= x <= max`, and then `min <= max`. -/
theorem threshold_bounds_enclose_data (m : FloatMatrix) (H M : Nat) (W : float) :
    ∃ p, ParameterCreator.TailRepeatHashThreshold.GetParameter m H M W = Except.ok p ∧
      ∀ i j, p.min ≤ m.entry i j ∧ m.entry i j ≤ p.max ∧ p.min ≤ p.max := by
  refine ⟨_, ParameterCreator.TailRepeatHashThreshold.GetParameter_eq m H M W, ?_⟩
  intro i j
  have hlo := (ParameterCreator.TailRepeatHashThreshold.scan_min m
    { range := H, «repeat» := M, dim := m.getDim,
      min := numeric_limits_float_max, max := numeric_limits_float_min }).2.1 i j
  have hhi := (ParameterCreator.TailRepeatHashThreshold.scan_max m
    { range := H, «repeat» := M, dim := m.getDim,
      min := numeric_limits_float_max, max := numeric_limits_float_min }).2.1 i j
  exact ⟨hlo, hhi, le_trans hlo hhi⟩

/-- C9: for a matrix with no points or with dimension zero the threshold derivation
returns, with `min` the largest finite float `(2^24 - 1) * 2^104`, `max` the smallest
positive normalized float `2^-126`, and so `min > max`. -/
theorem threshold_on_empty_dataset (m : FloatMatrix) (H M : Nat) (W : float)
    (h : m.getSize = 0 ∨ m.getDim = 0) :
    ∃ p, ParameterCreator.TailRepeatHashThreshold.GetParameter m H M W = Except.ok p ∧
      p.min = numeric_limits_float_max ∧ p.max = numeric_limits_float_min ∧
      p.min = (2 ^ 24 - 1) * 2 ^ 104 ∧ p.max = 1 / 2 ^ 126 ∧ p.min > p.max := by
  refine ⟨_, ParameterCreator.TailRepeatHashThreshold.GetParameter_eq m H M W, ?_⟩
  rw [ParameterCreator.TailRepeatHashThreshold.scan_of_no_entry m _ h]
  refine ⟨rfl, rfl, ?_, ?_, (by decide : numeric_limits_float_max > numeric_limits_float_min)⟩
  · norm_num [numeric_limits_float_max]
  · norm_num [numeric_limits_float_min, Rat.mkRat_eq_div]

/-- Witness of C9 on a dataset without points and on a dataset of dimension zero. -/
theorem threshold_on_empty_dataset_witness :
    ((emptyMatrix.getSize = 0 ∨ emptyMatrix.getDim = 0) ∧
      ∃ p, ParameterCreator.TailRepeatHashThreshold.GetParameter emptyMatrix 16 2 1
          = Except.ok p ∧
        p.min = numeric_limits_float_max ∧ p.max = numeric_limits_float_min ∧
        p.min = (2 ^ 24 - 1) * 2 ^ 104 ∧ p.max = 1 / 2 ^ 126 ∧ p.min > p.max) ∧
    ((zeroDimMatrix.getSize = 0 ∨ zeroDimMatrix.getDim = 0) ∧
      ∃ p, ParameterCreator.TailRepeatHashThreshold.GetParameter zeroDimMatrix 16 2 1
          = Except.ok p ∧
        p.min = numeric_limits_float_max ∧ p.max = numeric_limits_float_min ∧
        p.min = (2 ^ 24 - 1) * 2 ^ 104 ∧ p.max = 1 / 2 ^ 126 ∧ p.min > p.max) :=
  ⟨⟨by decide, threshold_on_empty_dataset emptyMatrix 16 2 1 (by decide)⟩,
    ⟨by decide, threshold_on_empty_dataset zeroDimMatrix 16 2 1 (by decide)⟩⟩

/-- C10: permuting the rows of the matrix does not change the parameters returned by
the threshold derivation. -/
theorem threshold_row_order_irrelevant (m : FloatMatrix) (σ : Equiv.Perm (Fin m.getSize))
    (H M : Nat) (W : float) :
    ParameterCreator.TailRepeatHashThreshold.GetParameter (m.permuteRows σ) H M W
      = ParameterCreator.TailRepeatHashThreshold.GetParameter m H M W := by
  rw [ParameterCreator.TailRepeatHashThreshold.GetParameter_eq,
    ParameterCreator.TailRepeatHashThreshold.GetParameter_eq]
  congr 1
  apply TailRepeatHashThreshold.Parameter.ext
  · rw [ParameterCreator.TailRepeatHashThreshold.scan_range,
      ParameterCreator.TailRepeatHashThreshold.scan_range]
  · rw [ParameterCreator.TailRepeatHashThreshold.scan_repeat,
      ParameterCreator.TailRepeatHashThreshold.scan_repeat]
  · rw [ParameterCreator.TailRepeatHashThreshold.scan_dim,
      ParameterCreator.TailRepeatHashThreshold.scan_dim]
    rfl
  · exact ParameterCreator.TailRepeatHashThreshold.scan_permuteRows_min m σ _
  · exact ParameterCreator.TailRepeatHashThreshold.scan_permuteRows_max m σ _

end similarity
